import Mathlib

/-!
Verification of the ST code-completion pipeline against its specification.

Shallow embedding of the repository's Python sources:

* `src/verifier_back/verifier_agent.py` — the auto-repair loop
  (`AutoDebugger.run_debugger_with_compiler`), its error selection and its
  patch application (`str.replace` folded over the parsed patch pairs).
* `src/verifier/codesys_debug.py` — `CodesysCompiler.extract_code_window`.
* `src/dataset/corpus_gen.py` — `generate_sliding_windows`.
* `src/dataset/queries_gen.py` — `extract_function_info` / lineno resolution.
* `src/retrieve/eval_beir_sbert_canonical.py` — the dummy-query handling
  around `retriever.retrieve`.
* `src/generator/eval/generation.py` — `get_response`'s retry loop.
* `src/generator/process_generations.py` — `normalize_generation` /
  `write_candidates`.

Python strings are embedded as `String`/`List Char`; Python dicts (insertion
ordered, unique keys) as association lists `List (String × α)`.  File systems
are embedded as association lists from file name to contents.
-/

namespace STPipeline

/-! ### Basic string helpers (Python `str` methods on `List Char`) -/

/-- Python whitespace for `str.strip`: space, tab, newline, carriage return,
vertical tab, form feed. -/
def isPyWS (c : Char) : Bool :=
  c = ' ' || c = '\t' || c = '\n' || c = '\r' || c.toNat = 11 || c.toNat = 12

/-- Python `str.rstrip()` on a character list. -/
def rstripL (l : List Char) : List Char :=
  (l.reverse.dropWhile isPyWS).reverse

/-- Python `str.strip()` on a character list. -/
def stripL (l : List Char) : List Char :=
  (rstripL l).dropWhile isPyWS

/-- Python `str.rstrip()`. -/
def pyRstrip (s : String) : String := String.mk (rstripL s.toList)

/-- Python `str.strip()`. -/
def pyStrip (s : String) : String := String.mk (stripL s.toList)

/-- Python `str.upper()` (ASCII fragment, as `Char.toUpper`). -/
def pyUpper (s : String) : String := String.mk (s.toList.map Char.toUpper)

/-- Python `needle in hay` substring test on character lists. -/
def containsSub (pat : List Char) : List Char → Bool
  | [] => pat.isEmpty
  | c :: rest => pat.isPrefixOf (c :: rest) || containsSub pat rest

/-- Python `needle in hay` substring test on strings. -/
def strContains (pat s : String) : Bool := containsSub pat.toList s.toList

/-! ### Compile results (`src/verifier/codesys_debug.py`, `ErrorMessage` /
`ResponseData`) -/

/-- One normalized compiler error (`ErrorMessage` in `codesys_debug.py`);
only the fields the claims need. -/
structure ErrorMessage where
  errorDesc : String
  errorType : String
  deriving DecidableEq, Repr

/-- String used as `error_type` for declaration-section errors. -/
def declarationType : String := "Declaration Section Error"

/-- String used as `error_type` for implementation-section errors. -/
def implementationType : String := "Implementation Section Error"

/-- Compile response (`ResponseData` in `codesys_debug.py`). -/
structure CheckResult where
  success : Bool
  errors : List ErrorMessage
  deriving Repr

/-! ### C2: error selection for the patch prompt
(`verifier_agent.py` lines 103–118) -/

/-- The `for error in check_result.errors: if error.error_type == t:
error_list.append(...)` accumulation pattern. -/
def collectByType (t : String) (errors : List ErrorMessage) : List ErrorMessage :=
  errors.foldl (fun acc e => if e.errorType = t then acc ++ [e] else acc) []

/-- Error selection of `run_debugger_with_compiler`: collect the
Declaration Section Errors; if none were collected, collect the
Implementation Section Errors instead. -/
def selectPromptErrors (errors : List ErrorMessage) : List ErrorMessage :=
  let declErrs := collectByType declarationType errors
  if declErrs.isEmpty then collectByType implementationType errors else declErrs

theorem collectByType_eq_filter (t : String) (errors : List ErrorMessage) :
    collectByType t errors = errors.filter (fun e => e.errorType = t) := by
  suffices h : ∀ acc : List ErrorMessage,
      errors.foldl (fun acc e => if e.errorType = t then acc ++ [e] else acc) acc
        = acc ++ errors.filter (fun e => e.errorType = t) by
    simpa [collectByType] using h []
  induction errors with
  | nil => intro acc; simp
  | cons e rest ih =>
      intro acc
      by_cases he : e.errorType = t
      · simp [List.foldl_cons, he, ih, List.filter_cons]
      · simp [List.foldl_cons, he, ih, List.filter_cons]

/-! ### C3: patch application (`verifier_agent.py` lines 145–146) -/

/-- One step of Python `str.replace(old, new)` (all non-overlapping
occurrences, scanned left to right), on character lists, with explicit
fuel; `fuel ≥ s.length` makes it faithful. -/
def pyReplaceGo (pat rep : List Char) : Nat → List Char → List Char
  | 0, s => s
  | _ + 1, [] => []
  | fuel + 1, c :: rest =>
      if pat.isPrefixOf (c :: rest) ∧ pat ≠ [] then
        rep ++ pyReplaceGo pat rep fuel ((c :: rest).drop pat.length)
      else
        c :: pyReplaceGo pat rep fuel rest

/-- Python `s.replace(old, new)` on character lists; the `old = ""` corner
case of Python inserts `new` at every character boundary. -/
def pyReplace (s pat rep : List Char) : List Char :=
  if pat = [] then rep ++ s.foldr (fun c acc => c :: (rep ++ acc)) []
  else pyReplaceGo pat rep s.length s

/-- The APPLY step of the auto-repair loop:
`for buggy, patch in segments_and_patches: st_code = st_code.replace(buggy, patch)`. -/
def applyPatches (code : List Char) (pairs : List (List Char × List Char)) : List Char :=
  pairs.foldl (fun c bp => pyReplace c bp.1 bp.2) code

/-! ### C1: the auto-repair loop (`verifier_agent.py` lines 88–158)

The loop `while verify_count < max_verify_count` is embedded with the
remaining budget as the recursion measure.  `compile` abstracts
`compiler.syntax_check` and `llm` abstracts the patch extraction
`parse_patch(extract_content(openai_client.call(...)))` for a given
iteration; the second component of the result counts the LLM patch calls
made. -/
def runDebugger (compile : List Char → CheckResult)
    (llm : Nat → List Char → List (List Char × List Char)) :
    Nat → List Char → Nat → List Char × Nat
  | 0, code, calls => (code, calls)
  | budget + 1, code, calls =>
      if (compile code).success then (code, calls)
      else runDebugger compile llm budget
        (applyPatches code (llm budget code)) (calls + 1)

/-- The budget both call sites pass
(`batch_process_and_fix.py:257`, `full_process.py:569`). -/
def defaultMaxVerifyCount : Nat := 3

theorem runDebugger_calls_le (compile : List Char → CheckResult)
    (llm : Nat → List Char → List (List Char × List Char)) :
    ∀ (budget : Nat) (code : List Char) (calls : Nat),
      (runDebugger compile llm budget code calls).2 ≤ calls + budget := by
  intro budget
  induction budget with
  | zero => intro code calls; simp [runDebugger]
  | succ b ih =>
      intro code calls
      by_cases h : (compile code).success
      · have hstep : runDebugger compile llm (b + 1) code calls = (code, calls) := by
          simp [runDebugger, h]
        rw [hstep]
        omega
      · have := ih (applyPatches code (llm b code)) (calls + 1)
        simp only [runDebugger, h, if_neg, Bool.false_eq_true, if_false]
        calc (runDebugger compile llm b (applyPatches code (llm b code)) (calls + 1)).2
            ≤ (calls + 1) + b := this
          _ ≤ calls + (b + 1) := by omega

theorem pyReplaceGo_nil (pat rep : List Char) (fuel : Nat) :
    pyReplaceGo pat rep fuel [] = [] := by
  cases fuel <;> simp [pyReplaceGo]

theorem pyReplaceGo_cons_pos (pat rep : List Char) (fuel : Nat) (c : Char)
    (rest : List Char) (hp : pat.isPrefixOf (c :: rest) ∧ pat ≠ []) :
    pyReplaceGo pat rep (fuel + 1) (c :: rest)
      = rep ++ pyReplaceGo pat rep fuel ((c :: rest).drop pat.length) := by
  simp only [pyReplaceGo]
  split
  · rfl
  · next hcond => exact absurd hp hcond

theorem pyReplaceGo_cons_neg (pat rep : List Char) (fuel : Nat) (c : Char)
    (rest : List Char) (hp : ¬(pat.isPrefixOf (c :: rest) ∧ pat ≠ [])) :
    pyReplaceGo pat rep (fuel + 1) (c :: rest)
      = c :: pyReplaceGo pat rep fuel rest := by
  simp only [pyReplaceGo]
  split
  · next hcond => exact absurd hcond hp
  · rfl

theorem pyReplaceGo_fuel_ge (pat rep : List Char) (hpat : pat ≠ []) :
    ∀ (fuel₁ fuel₂ : Nat) (s : List Char), s.length ≤ fuel₁ → s.length ≤ fuel₂ →
      pyReplaceGo pat rep fuel₁ s = pyReplaceGo pat rep fuel₂ s := by
  intro fuel₁
  induction fuel₁ with
  | zero =>
      intro fuel₂ s hs₁ _
      have : s = [] := List.length_eq_zero.mp (Nat.le_zero.mp hs₁)
      subst this
      simp [pyReplaceGo, pyReplaceGo_nil]
  | succ f ih =>
      intro fuel₂ s hs₁ hs₂
      cases s with
      | nil => simp [pyReplaceGo_nil]
      | cons c rest =>
          cases fuel₂ with
          | zero => simp at hs₂
          | succ f₂ =>
              have hplen : 1 ≤ pat.length := by
                cases pat with
                | nil => exact absurd rfl hpat
                | cons _ _ => simp
              by_cases hcond : (pat.isPrefixOf (c :: rest) ∧ pat ≠ [])
              · have hdrop : ((c :: rest).drop pat.length).length ≤ f := by
                  simp only [List.length_drop, List.length_cons]
                  simp only [List.length_cons] at hs₁
                  omega
                have hdrop₂ : ((c :: rest).drop pat.length).length ≤ f₂ := by
                  simp only [List.length_drop, List.length_cons]
                  simp only [List.length_cons] at hs₂
                  omega
                rw [pyReplaceGo_cons_pos pat rep f c rest hcond,
                  pyReplaceGo_cons_pos pat rep f₂ c rest hcond,
                  ih f₂ _ hdrop hdrop₂]
              · have hr : rest.length ≤ f := by
                  simp only [List.length_cons] at hs₁; omega
                have hr₂ : rest.length ≤ f₂ := by
                  simp only [List.length_cons] at hs₂; omega
                rw [pyReplaceGo_cons_neg pat rep f c rest hcond,
                  pyReplaceGo_cons_neg pat rep f₂ c rest hcond,
                  ih f₂ _ hr hr₂]

/-- Skipping characters that cannot start an occurrence of `pat`. -/
theorem pyReplace_skip (pat rep : List Char) (h : Char)
    (hh : pat.head? = some h) :
    ∀ (a t : List Char), h ∉ a →
      pyReplace (a ++ t) pat rep = a ++ pyReplace t pat rep := by
  have hpat : pat ≠ [] := by
    intro hcontra; rw [hcontra] at hh; simp at hh
  intro a
  induction a with
  | nil => intro t _; simp
  | cons x a' ih =>
      intro t hx
      have hxh : x ≠ h := by
        intro hcontra; exact hx (by simp [hcontra])
      have hnp : ¬(pat.isPrefixOf (x :: (a' ++ t)) ∧ pat ≠ []) := by
        rintro ⟨hp, -⟩
        cases pat with
        | nil => exact hpat rfl
        | cons p pr =>
            simp only [List.head?_cons, Option.some.injEq] at hh
            simp only [List.isPrefixOf, Bool.and_eq_true, beq_iff_eq] at hp
            exact hxh (hp.1.symm.trans hh)
      have hlen : (a' ++ t).length ≤ (x :: (a' ++ t)).length - 1 := by simp
      calc pyReplace ((x :: a') ++ t) pat rep
          = pyReplaceGo pat rep ((x :: a') ++ t).length ((x :: a') ++ t) := by
            simp [pyReplace, hpat]
        _ = x :: pyReplaceGo pat rep ((a' ++ t).length) (a' ++ t) := by
            have hlc : (x :: (a' ++ t)).length = (a' ++ t).length + 1 := by simp
            rw [List.cons_append, hlc,
              pyReplaceGo_cons_neg pat rep ((a' ++ t).length) x (a' ++ t) hnp]
        _ = x :: pyReplace (a' ++ t) pat rep := by simp [pyReplace, hpat]
        _ = x :: (a' ++ pyReplace t pat rep) := by
            rw [ih t (by intro hmem; exact hx (by simp [hmem]))]
        _ = (x :: a') ++ pyReplace t pat rep := by simp

/-- An occurrence of `pat` at the head of the string is replaced. -/
theorem pyReplace_hit (pat rep : List Char) (hpat : pat ≠ []) (t : List Char) :
    pyReplace (pat ++ t) pat rep = rep ++ pyReplace t pat rep := by
  cases hp : pat with
  | nil => exact absurd hp hpat
  | cons p pr =>
      rw [← hp]
      have hcond : (pat.isPrefixOf (pat ++ t) ∧ pat ≠ []) := by
        refine ⟨?_, hpat⟩
        rw [ List.isPrefixOf_iff_prefix]
        exact List.prefix_append pat t
      have hlen : (pat ++ t).length = ((pat ++ t).length - 1) + 1 := by
        rw [hp]; simp
      calc pyReplace (pat ++ t) pat rep
          = pyReplaceGo pat rep ((pat ++ t).length) (pat ++ t) := by
            simp [pyReplace, hpat]
        _ = pyReplaceGo pat rep (((pat ++ t).length - 1) + 1) (pat ++ t) := by
            rw [← hlen]
        _ = rep ++ pyReplaceGo pat rep ((pat ++ t).length - 1) ((pat ++ t).drop pat.length) := by
            have hcons : pat ++ t = p :: (pr ++ t) := by rw [hp]; rfl
            have hcond' : pat.isPrefixOf (p :: (pr ++ t)) ∧ pat ≠ [] := by
              rw [← hcons]; exact hcond
            rw [hcons]
            exact pyReplaceGo_cons_pos pat rep ((p :: (pr ++ t)).length - 1) p (pr ++ t) hcond'
        _ = rep ++ pyReplaceGo pat rep ((pat ++ t).length - 1) t := by
            rw [List.drop_left]
        _ = rep ++ pyReplaceGo pat rep t.length t := by
            rw [pyReplaceGo_fuel_ge pat rep hpat _ t.length t _ le_rfl]
            have : 1 ≤ pat.length := by rw [hp]; simp
            simp only [List.length_append]
            omega
        _ = rep ++ pyReplace t pat rep := by simp [pyReplace, hpat]

/-- C3 (amended): the APPLY step replaces every (leftmost-first,
non-overlapping) occurrence of `segment` — not only the first.  Stated for a
code string with two occurrences of `segment` cleanly separated by text not
containing the segment's first character: both are replaced. -/
theorem applyPatches_replaces_every_occurrence
    (a b c pat rep : List Char) (h : Char)
    (hh : pat.head? = some h) (ha : h ∉ a) (hb : h ∉ b) (hc : h ∉ c) :
    applyPatches (a ++ pat ++ b ++ pat ++ c) [(pat, rep)]
      = a ++ rep ++ b ++ rep ++ c := by
  have hpat : pat ≠ [] := by
    intro hcontra; rw [hcontra] at hh; simp at hh
  have hfix : pyReplace c pat rep = c := by
    have := pyReplace_skip pat rep h hh c [] hc
    simpa [pyReplace, hpat, pyReplaceGo_nil] using this
  calc applyPatches (a ++ pat ++ b ++ pat ++ c) [(pat, rep)]
      = pyReplace (a ++ (pat ++ (b ++ (pat ++ c)))) pat rep := by
        simp [applyPatches]
    _ = a ++ pyReplace (pat ++ (b ++ (pat ++ c))) pat rep :=
        pyReplace_skip pat rep h hh a _ ha
    _ = a ++ (rep ++ pyReplace (b ++ (pat ++ c)) pat rep) := by
        rw [pyReplace_hit pat rep hpat]
    _ = a ++ (rep ++ (b ++ pyReplace (pat ++ c) pat rep)) := by
        rw [pyReplace_skip pat rep h hh b _ hb]
    _ = a ++ (rep ++ (b ++ (rep ++ pyReplace c pat rep))) := by
        rw [pyReplace_hit pat rep hpat]
    _ = a ++ rep ++ b ++ rep ++ c := by rw [hfix]; simp

/-- Witness for C3's amended theorem: in `Ax;x!` both occurrences of the
segment `x` get replaced by `yz`. -/
theorem applyPatches_replaces_every_occurrence_witness :
    applyPatches ("A".toList ++ "x".toList ++ ";".toList ++ "x".toList ++ "!".toList)
        [("x".toList, "yz".toList)]
      = "A".toList ++ "yz".toList ++ ";".toList ++ "yz".toList ++ "!".toList :=
  applyPatches_replaces_every_occurrence
    "A".toList ";".toList "!".toList "x".toList "yz".toList 'x'
    (by decide) (by decide) (by decide) (by decide)

/-- C3 counterexample: the claim predicts that applying the pair
`("x", "y")` to `"x;x;"` yields `"y;x;"` (later occurrence untouched), but
the code (`str.replace`) yields `"y;y;"`. -/
theorem applyPatches_first_occurrence_only_counterexample :
    applyPatches "x;x;".toList [("x".toList, "y".toList)] = "y;y;".toList ∧
      ("y;y;".toList : List Char) ≠ "y;x;".toList := by
  constructor
  · decide
  · decide

/-- C1: every invocation of the auto-repair loop with budget
`max_verify_count` terminates (the embedding is a total function) and makes
at most `max_verify_count` LLM patch calls — at most one per iteration — and
the default budget passed by both callers is 3. -/
theorem autoRepair_llm_calls_bounded (compile : List Char → CheckResult)
    (llm : Nat → List Char → List (List Char × List Char))
    (maxVerifyCount : Nat) (code : List Char) :
    (runDebugger compile llm maxVerifyCount code 0).2 ≤ maxVerifyCount ∧
      defaultMaxVerifyCount = 3 := by
  refine ⟨?_, rfl⟩
  simpa using runDebugger_calls_le compile llm maxVerifyCount code 0

/-- C2: inside the auto-repair loop, if any Declaration Section Error is
present then the prompt error list is exactly the Declaration Section Errors
(and contains no Implementation Section Error); otherwise it is exactly the
Implementation Section Errors. -/
theorem repair_prompt_error_selection (errors : List ErrorMessage) :
    ((∃ e ∈ errors, e.errorType = declarationType) →
        selectPromptErrors errors
            = errors.filter (fun e => e.errorType = declarationType) ∧
          ∀ e ∈ selectPromptErrors errors, e.errorType ≠ implementationType) ∧
      ((∀ e ∈ errors, e.errorType ≠ declarationType) →
        selectPromptErrors errors
          = errors.filter (fun e => e.errorType = implementationType)) := by
  constructor
  · rintro ⟨e, he, ht⟩
    have hne : ¬(errors.filter (fun e => e.errorType = declarationType)).isEmpty := by
      rw [List.isEmpty_iff, List.filter_eq_nil_iff]
      push_neg
      exact ⟨e, he, by simp [ht]⟩
    have hsel : selectPromptErrors errors
        = errors.filter (fun e => e.errorType = declarationType) := by
      simp only [selectPromptErrors, collectByType_eq_filter]
      rw [if_neg hne]
    refine ⟨hsel, ?_⟩
    intro f hf
    rw [hsel] at hf
    have := List.of_mem_filter hf
    have hd : f.errorType = declarationType := by simpa using this
    rw [hd]
    intro hcontra
    exact absurd hcontra.symm (by simp [declarationType, implementationType])
  · intro h
    have hnil : errors.filter (fun e => e.errorType = declarationType) = [] := by
      rw [List.filter_eq_nil_iff]
      intro e he
      simpa using h e he
    simp only [selectPromptErrors, collectByType_eq_filter]
    rw [if_pos (by simp [hnil])]

/-- Witness for C2's theorem at concrete error lists. -/
theorem repair_prompt_error_selection_witness :
    (selectPromptErrors
        [⟨"d1", declarationType⟩, ⟨"i1", implementationType⟩]
          = [⟨"d1", declarationType⟩] ∧
        selectPromptErrors [⟨"i1", implementationType⟩]
          = [⟨"i1", implementationType⟩]) := by
  constructor
  · have h := (repair_prompt_error_selection
      [⟨"d1", declarationType⟩, ⟨"i1", implementationType⟩]).1
      ⟨⟨"d1", declarationType⟩, by simp, rfl⟩
    rw [h.1]
    simp [declarationType, implementationType]
  · have h := (repair_prompt_error_selection [⟨"i1", implementationType⟩]).2
      (by intro e he
          simp at he
          simp [he, declarationType, implementationType])
    rw [h]
    simp

/-! ### C5: compile-error line resolution and code window
(`codesys_debug.py`, `CodesysCompiler.extract_code_window`, lines 85–111)

The model takes `lines = source_code.splitlines()` as input; `Path` is the
raw error record's relative line index (a non-negative line count). -/

/-- Python `"BEGIN" in line.upper()`. -/
def hasBEGIN (line : String) : Bool := strContains "BEGIN" (pyUpper line)

/-- Python `"END_VAR" in line.upper()`. -/
def hasENDVAR (line : String) : Bool := strContains "END_VAR" (pyUpper line)

/-- Source `next((i for i, line in enumerate(lines) if "BEGIN" in line.upper()), None)`. -/
def beginIdx (lines : List String) : Option Nat := lines.findIdx? hasBEGIN

/-- Source `[i for i, line in enumerate(lines) if "END_VAR" in line.upper()]`. -/
def endVarIndices (lines : List String) : List Nat :=
  (List.range lines.length).filter (fun i => hasENDVAR (lines.getD i ""))

/-- Source `end_var_indices[-1]` when non-empty. -/
def lastEndVarIdx (lines : List String) : Option Nat := (endVarIndices lines).getLast?

/-- The `base_line_idx` computation of `extract_code_window`. -/
def baseLineIdx (lines : List String) (isDef : Bool) : Nat :=
  if isDef then 0
  else
    match beginIdx lines with
    | some i => i
    | none =>
        match lastEndVarIdx lines with
        | some j => j + 1
        | none => 0

/-- Source `error_line_idx = base_line_idx + path`. -/
def errorLineIdx (lines : List String) (path : Nat) (isDef : Bool) : Nat :=
  baseLineIdx lines isDef + path

/-- Python `f"{n:>4}"`. -/
def padLeft4 (n : Nat) : String :=
  let s := toString n
  if s.length < 4 then String.mk (List.replicate (4 - s.length) ' ') ++ s else s

/-- Source `"\n".join(f"{i + 1:>4}: {lines[i]}" for i in range(start_idx, end_idx))`
with `start_idx = max(0, error_line_idx - 3)` (ℕ subtraction) and
`end_idx = min(len(lines), error_line_idx + 3 + 1)`. -/
def codeWindow (lines : List String) (path : Nat) (isDef : Bool) : String :=
  let idx := errorLineIdx lines path isDef
  let start := idx - 3
  let stop := min lines.length (idx + 3 + 1)
  String.intercalate "\n"
    ((List.range' start (stop - start)).map (fun i => padLeft4 (i + 1) ++ ": " ++ lines.getD i ""))

theorem findIdx?_of_first (p : String → Bool) :
    ∀ (l : List String) (i : Nat), i < l.length → p (l.getD i "") →
      (∀ k, k < i → ¬p (l.getD k "")) → l.findIdx? p = some i := by
  intro l
  induction l with
  | nil => intro i hi; simp at hi
  | cons x rest ih =>
      intro i hi hp hmin
      cases i with
      | zero =>
          rw [List.getD_cons_zero] at hp
          rw [List.findIdx?_cons, if_pos hp]
      | succ i' =>
          have hx : ¬p x := by
            have := hmin 0 (Nat.succ_pos i')
            rwa [List.getD_cons_zero] at this
          rw [List.findIdx?_cons, if_neg hx, List.findIdx?_succ]
          have hrec : rest.findIdx? p = some i' := by
            refine ih i' ?_ ?_ ?_
            · simpa using hi
            · rwa [List.getD_cons_succ] at hp
            · intro k hk
              have := hmin (k + 1) (by omega)
              rwa [List.getD_cons_succ] at this
          rw [hrec]
          rfl

theorem getLast?_filter_range (p : Nat → Bool) (len j : Nat)
    (hj : j < len) (hpj : p j) (hafter : ∀ k, j < k → k < len → ¬p k) :
    ((List.range len).filter p).getLast? = some j := by
  have hsplit : List.range len = List.range (j + 1) ++ List.range' (j + 1) (len - (j + 1)) := by
    rw [List.range_eq_range']
    have happ := List.range'_append 0 (j + 1) (len - (j + 1)) 1
    simp only [Nat.zero_add, Nat.one_mul] at happ
    rw [List.range_eq_range']
    rw [happ]
    congr 1
    omega
  have htail : (List.range' (j + 1) (len - (j + 1))).filter p = [] := by
    rw [List.filter_eq_nil_iff]
    intro m hm
    rw [List.mem_range'] at hm
    obtain ⟨i, hi, hmi⟩ := hm
    exact hafter m (by omega) (by omega)
  have hhead : (List.range (j + 1)).filter p = (List.range j).filter p ++ [j] := by
    rw [List.range_succ, List.filter_append]
    simp [hpj]
  rw [hsplit, List.filter_append, htail, List.append_nil, hhead, List.getLast?_concat]

/-- C5: the resolved error line is `base + Path` where `base` is 0 when
`IsDef`, else the first line containing `BEGIN` (case-insensitively) when
one exists, else the line after the last `END_VAR` (so `Path = 0`,
`IsDef = false`, no `BEGIN` resolves to `last_END_VAR + 1`); the code window
covers `[resolved - 3, resolved + 3]` clamped to the file, each line
prefixed with its 1-based number. -/
theorem compile_error_line_resolution (lines : List String) (path : Nat) :
    (errorLineIdx lines path true = path) ∧
      (∀ i, i < lines.length → hasBEGIN (lines.getD i "") →
        (∀ k, k < i → ¬hasBEGIN (lines.getD k "")) →
        errorLineIdx lines path false = i + path) ∧
      (∀ j, (∀ l ∈ lines, ¬hasBEGIN l) → j < lines.length →
        hasENDVAR (lines.getD j "") →
        (∀ k, j < k → k < lines.length → ¬hasENDVAR (lines.getD k "")) →
        errorLineIdx lines path false = (j + 1) + path) ∧
      (∀ isDef : Bool, codeWindow lines path isDef
        = String.intercalate "\n"
            ((List.range' (errorLineIdx lines path isDef - 3)
                (min lines.length (errorLineIdx lines path isDef + 3 + 1)
                  - (errorLineIdx lines path isDef - 3))).map
              (fun i => padLeft4 (i + 1) ++ ": " ++ lines.getD i ""))) := by
  refine ⟨?_, ?_, ?_, ?_⟩
  · simp [errorLineIdx, baseLineIdx]
  · intro i hi hp hmin
    have hfind : lines.findIdx? hasBEGIN = some i := findIdx?_of_first hasBEGIN lines i hi hp hmin
    simp [errorLineIdx, baseLineIdx, beginIdx, hfind]
  · intro j hnb hj hpj hafter
    have hfind : lines.findIdx? hasBEGIN = none := by
      rw [List.findIdx?_eq_none_iff]
      intro x hx
      exact Bool.eq_false_iff.mpr (hnb x hx)
    have hlast : lastEndVarIdx lines = some j := by
      unfold lastEndVarIdx endVarIndices
      exact getLast?_filter_range (fun i => hasENDVAR (lines.getD i "")) lines.length j hj
        hpj (fun k h1 h2 => hafter k h1 h2)
    simp only [errorLineIdx, baseLineIdx, beginIdx, hfind, hlast, Bool.false_eq_true, if_false]
  · intro isDef
    rfl

/-- Witness for C5: `["VAR", "END_VAR", "x := 1;"]` with `Path = 0`,
`IsDef = false`, no `BEGIN` — the error resolves to line index 2, the line
after the last `END_VAR`. -/
theorem compile_error_line_resolution_witness :
    errorLineIdx ["VAR", "END_VAR", "x := 1;"] 0 false = 2 := by
  have h := (compile_error_line_resolution ["VAR", "END_VAR", "x := 1;"] 0).2.2.1 1
    (by intro l hl
        simp only [List.mem_cons, List.not_mem_nil, or_false] at hl
        rcases hl with h | h | h <;> (subst h; decide))
    (by decide) (by decide)
    (by intro k h1 h2
        have h2' : k < 3 := by simpa using h2
        have hk : k = 2 := by omega
        subst hk
        decide)
  simpa using h

/-! ### C6: sliding-window corpus builder
(`corpus_gen.py`, `generate_sliding_windows`, lines 22–98)

`lines` is the `readlines()` list (each line keeps its newline); `content`
is `''.join(lines[start:end])`.  The `sliceSize = 0` early exits guard
termination; `corpus_gen.main` validates `slice_size > 0` before calling. -/

/-- One emitted window (`{'line_no', 'start_line_no', 'end_line_no', 'content'}`). -/
structure CorpusWindow where
  lineNo : Nat
  startLine : Nat
  endLine : Nat
  content : String
  deriving Repr, DecidableEq

/-- Source `''.join(lines[s:e])`. -/
def windowContent (lines : List String) (s e : Nat) : String :=
  String.join ((lines.drop s).take (e - s))

/-- Warm-up phase: `while current_window_size <= window_size`, growing the
window from line 0; the boolean records whether the phase returned early
(file end reached), in which case the stride phase is skipped. -/
def warmupWindows (lines : List String) (windowSize sliceSize current lineNo : Nat) :
    List CorpusWindow × Bool :=
  if h : current ≤ windowSize then
    let e := min current lines.length
    let w : CorpusWindow := ⟨lineNo, 0, e, windowContent lines 0 e⟩
    if e ≥ lines.length then ([w], true)
    else if hs : sliceSize = 0 then ([w], true)
    else
      let rest := warmupWindows lines windowSize sliceSize (current + sliceSize) (lineNo + sliceSize)
      (w :: rest.1, rest.2)
  else ([], false)
termination_by windowSize + 1 - current
decreasing_by omega

/-- Stride phase: `while line_no < total_lines`, windows
`lines[line_no : line_no + window_size]` advancing by `slice_size`. -/
def strideWindows (lines : List String) (windowSize sliceSize lineNo : Nat) : List CorpusWindow :=
  if h : lineNo < lines.length then
    let e := min (lineNo + windowSize) lines.length
    let w : CorpusWindow := ⟨lineNo, lineNo, e, windowContent lines lineNo e⟩
    if e ≥ lines.length then [w]
    else if hs : sliceSize = 0 then [w]
    else w :: strideWindows lines windowSize sliceSize (lineNo + sliceSize)
  else []
termination_by lines.length - lineNo
decreasing_by omega

/-- Source `generate_sliding_windows(lines, window_size, slice_size)`. -/
def generateSlidingWindows (lines : List String) (windowSize sliceSize : Nat) : List CorpusWindow :=
  if lines.length = 0 then []
  else
    let warm := warmupWindows lines windowSize sliceSize (windowSize / 2) 0
    if warm.2 then warm.1
    else warm.1 ++ strideWindows lines windowSize sliceSize sliceSize

theorem warmupWindows_mem (lines : List String) (windowSize sliceSize : Nat) :
    ∀ (current lineNo : Nat), ∀ w ∈ (warmupWindows lines windowSize sliceSize current lineNo).1,
      w.startLine = 0 ∧ w.endLine ≤ windowSize := by
  intro current lineNo
  induction current, lineNo using warmupWindows.induct lines windowSize sliceSize with
  | case1 current lineNo hcur e he =>
      intro w hw
      rw [warmupWindows, dif_pos hcur, if_pos he] at hw
      simp only [List.mem_singleton] at hw
      subst hw
      exact ⟨rfl, by simp; omega⟩
  | case2 current lineNo hcur e he hs =>
      intro w hw
      rw [warmupWindows, dif_pos hcur, if_neg he, dif_pos hs] at hw
      simp only [List.mem_singleton] at hw
      subst hw
      exact ⟨rfl, by simp; omega⟩
  | case3 current lineNo hcur e he hs ih =>
      intro w hw
      rw [warmupWindows, dif_pos hcur, if_neg he, dif_neg hs] at hw
      simp only [List.mem_cons] at hw
      rcases hw with hw | hw
      · subst hw
        exact ⟨rfl, by simp; omega⟩
      · exact ih w hw
  | case4 current lineNo hcur =>
      intro w hw
      rw [warmupWindows, dif_neg hcur] at hw
      simp at hw

theorem strideWindows_mem (lines : List String) (windowSize sliceSize : Nat) :
    ∀ (lineNo : Nat), (∃ k, lineNo = k * sliceSize) →
      ∀ w ∈ strideWindows lines windowSize sliceSize lineNo,
        (∃ k, w.startLine = k * sliceSize) ∧ w.endLine - w.startLine ≤ windowSize := by
  intro lineNo
  induction lineNo using strideWindows.induct lines windowSize sliceSize with
  | case1 x hx e he =>
      intro hmul w hw
      rw [strideWindows, dif_pos hx, if_pos he] at hw
      simp only [List.mem_singleton] at hw
      subst hw
      exact ⟨hmul, by simp; omega⟩
  | case2 x hx e he hs =>
      intro hmul w hw
      rw [strideWindows, dif_pos hx, if_neg he, dif_pos hs] at hw
      simp only [List.mem_singleton] at hw
      subst hw
      exact ⟨hmul, by simp; omega⟩
  | case3 x hx e he hs ih =>
      intro hmul w hw
      rw [strideWindows, dif_pos hx, if_neg he, dif_neg hs] at hw
      simp only [List.mem_cons] at hw
      rcases hw with hw | hw
      · subst hw
        exact ⟨hmul, by simp; omega⟩
      · refine ih ?_ w hw
        obtain ⟨k, hk⟩ := hmul
        exact ⟨k + 1, by rw [hk, Nat.succ_mul]⟩
  | case4 x hx =>
      intro _ w hw
      rw [strideWindows, dif_neg hx] at hw
      simp at hw

/-- C6: for positive `window_size` and `slice_size`, every emitted document
spans at most `window_size` lines; every warm-up-phase document starts at
line 0; every stride-phase document's start line is a non-negative multiple
of `slice_size`. -/
theorem corpus_window_invariants (lines : List String) (windowSize sliceSize : Nat)
    (hw : 0 < windowSize) (hs : 0 < sliceSize) :
    (∀ w ∈ generateSlidingWindows lines windowSize sliceSize,
        w.endLine - w.startLine ≤ windowSize) ∧
      (∀ w ∈ (warmupWindows lines windowSize sliceSize (windowSize / 2) 0).1,
        w.startLine = 0) ∧
      (∀ w ∈ strideWindows lines windowSize sliceSize sliceSize,
        ∃ k, w.startLine = k * sliceSize) := by
  refine ⟨?_, ?_, ?_⟩
  · intro w hmem
    unfold generateSlidingWindows at hmem
    by_cases h0 : lines.length = 0
    · rw [if_pos h0] at hmem; simp at hmem
    · rw [if_neg h0] at hmem
      by_cases hstop : (warmupWindows lines windowSize sliceSize (windowSize / 2) 0).2
      · rw [if_pos hstop] at hmem
        have := warmupWindows_mem lines windowSize sliceSize (windowSize / 2) 0 w hmem
        omega
      · rw [if_neg hstop, List.mem_append] at hmem
        rcases hmem with hmem | hmem
        · have := warmupWindows_mem lines windowSize sliceSize (windowSize / 2) 0 w hmem
          omega
        · exact (strideWindows_mem lines windowSize sliceSize sliceSize ⟨1, by omega⟩ w hmem).2
  · intro w hmem
    exact (warmupWindows_mem lines windowSize sliceSize (windowSize / 2) 0 w hmem).1
  · intro w hmem
    exact (strideWindows_mem lines windowSize sliceSize sliceSize ⟨1, by omega⟩ w hmem).1

/-- Witness for C6 at a concrete file (7 lines, window 4, slice 2): every
emitted document spans at most 4 lines. -/
theorem corpus_window_invariants_witness :
    ((generateSlidingWindows ["a\n", "b\n", "c\n", "d\n", "e\n", "f\n", "g\n"] 4 2).map
        (fun w => w.endLine - w.startLine)).all (fun d => d ≤ 4) = true := by
  have h := (corpus_window_invariants ["a\n", "b\n", "c\n", "d\n", "e\n", "f\n", "g\n"] 4 2
    (by decide) (by decide)).1
  rw [List.all_eq_true]
  intro d hd
  rw [List.mem_map] at hd
  obtain ⟨w, hwmem, rfl⟩ := hd
  simpa using h w hwmem

/-! ### C7: query-builder declaration boundary
(`queries_gen.py`, `extract_function_info`, lines 59–104)

The model takes `lines = file_content.split('\n')` as input. -/

/-- Source `re.match(r'^VAR\s*$', line.strip())`: the trimmed line is exactly `VAR`
(in particular none of `VAR_INPUT`, `VAR_OUTPUT`, `VAR_IN_OUT`, `VAR_TEMP`,
`VAR_EXTERNAL`, `VAR_GLOBAL` qualifies). -/
def isBareVarLine (line : String) : Bool := pyStrip line = "VAR"

/-- Index of the first bare `VAR` line. -/
def varLineIdx (lines : List String) : Option Nat := lines.findIdx? isBareVarLine

/-- Source `line.strip() == 'END_VAR'`. -/
def isEndVarLine (line : String) : Bool := pyStrip line = "END_VAR"

/-- The last index whose line strips to `END_VAR` (`last_end_var`). -/
def lastEndVarLineIdx (lines : List String) : Option Nat :=
  ((List.range lines.length).filter (fun i => isEndVarLine (lines.getD i ""))).getLast?

/-- Source `text_end_line`: the 0-based first line of the body — the bare `VAR`
line if one exists, else the line after the last `END_VAR`, else the line
count. -/
def textEndLine (lines : List String) : Nat :=
  match varLineIdx lines with
  | some i => i
  | none =>
      match lastEndVarLineIdx lines with
      | some j => j + 1
      | none => lines.length

/-- Source `text`: `'\n'.join(text_lines).strip()` where `text_lines` are the lines
before the body. -/
def queryText (lines : List String) : String :=
  pyStrip (String.intercalate "\n" (lines.take (textEndLine lines)))

/-- Source `metadata.lineno = text_end_line + 1` (1-based). -/
def queryLineno (lines : List String) : Nat := textEndLine lines + 1

/-- C7: if some line strips to exactly `VAR` (which excludes the
`VAR_INPUT`-style keywords), the body starts at that line and the query text
is the (stripped, newline-joined) lines before it; otherwise if an `END_VAR`
line exists the body starts after the last one; in both cases
`metadata.lineno` is the 1-based number of the body's first line. -/
theorem query_body_boundary (lines : List String) :
    (∀ i, i < lines.length → isBareVarLine (lines.getD i "") →
        (∀ k, k < i → ¬isBareVarLine (lines.getD k "")) →
        textEndLine lines = i ∧ queryLineno lines = i + 1 ∧
          queryText lines = pyStrip (String.intercalate "\n" (lines.take i))) ∧
      ((∀ l ∈ lines, ¬isBareVarLine l) →
        ∀ j, j < lines.length → isEndVarLine (lines.getD j "") →
        (∀ k, j < k → k < lines.length → ¬isEndVarLine (lines.getD k "")) →
        textEndLine lines = j + 1 ∧ queryLineno lines = j + 2) ∧
      (∀ s ∈ (["VAR_INPUT", "VAR_OUTPUT", "VAR_IN_OUT", "VAR_TEMP",
          "VAR_EXTERNAL", "VAR_GLOBAL"] : List String), ¬isBareVarLine s) := by
  refine ⟨?_, ?_, ?_⟩
  · intro i hi hp hmin
    have hfind : lines.findIdx? isBareVarLine = some i :=
      findIdx?_of_first isBareVarLine lines i hi hp hmin
    have hend : textEndLine lines = i := by
      simp [textEndLine, varLineIdx, hfind]
    exact ⟨hend, by simp [queryLineno, hend], by simp [queryText, hend]⟩
  · intro hnv j hj hpj hafter
    have hfind : lines.findIdx? isBareVarLine = none := by
      rw [List.findIdx?_eq_none_iff]
      intro x hx
      exact Bool.eq_false_iff.mpr (hnv x hx)
    have hlast : lastEndVarLineIdx lines = some j := by
      unfold lastEndVarLineIdx
      exact getLast?_filter_range (fun i => isEndVarLine (lines.getD i "")) lines.length j hj
        hpj (fun k h1 h2 => hafter k h1 h2)
    have hend : textEndLine lines = j + 1 := by
      simp [textEndLine, varLineIdx, hfind, hlast]
    exact ⟨hend, by simp [queryLineno, hend]⟩
  · decide

/-- Witness for C7 at `["FUNCTION F : INT", "VAR", "END_VAR"]`: the bare
`VAR` line at index 1 starts the body, and `lineno = 2`. -/
theorem query_body_boundary_witness :
    textEndLine ["FUNCTION F : INT", "VAR", "END_VAR"] = 1 ∧
      queryLineno ["FUNCTION F : INT", "VAR", "END_VAR"] = 2 := by
  have h := (query_body_boundary ["FUNCTION F : INT", "VAR", "END_VAR"]).1 1
    (by decide) (by decide)
    (by intro k hk
        have hk0 : k = 0 := by omega
        subst hk0
        decide)
  exact ⟨h.1, h.2.1⟩

/-! ### C8: single-query dummy handling
(`eval_beir_sbert_canonical.py`, `main`, lines 318–327)

`queries` is the Python dict `{task_id: text}` embedded as an
insertion-ordered association list with unique keys; the external
bi-encoder retriever is abstracted by a ranking function `rank` applied
pointwise (one ranked document list per query id). -/

/-- Python `d.update({k: v})`: overwrite in place, or append. -/
def dictUpdate (qs : List (String × String)) (k v : String) : List (String × String) :=
  if (qs.map Prod.fst).contains k then
    qs.map (fun e => if e.1 = k then (k, v) else e)
  else qs ++ [(k, v)]

/-- Python `d.pop(k)` (the removal effect). -/
def dictPop {α : Type} (qs : List (String × α)) (k : String) : List (String × α) :=
  qs.filter (fun e => e.1 ≠ k)

/-- Source `retriever.retrieve(corpus, queries)` abstracted: one ranked document
list per query. -/
def retrieveAll (rank : String → String → List String)
    (qs : List (String × String)) : List (String × List String) :=
  qs.map (fun e => (e.1, rank e.1 e.2))

/-- The dummy-query special case around retrieval:
`if len(queries) == 1: queries.update({"dummy": "dummy"})`, retrieve, then
`if "dummy" in queries: queries.pop("dummy"); results.pop("dummy")`. -/
def retrieveWithDummy (rank : String → String → List String)
    (queries : List (String × String)) : List (String × List String) :=
  let queries' := if queries.length = 1 then dictUpdate queries "dummy" "dummy" else queries
  let results := retrieveAll rank queries'
  if (queries'.map Prod.fst).contains "dummy" then dictPop results "dummy" else results

/-- C8 (amended): for a single query whose id is not the literal string
`"dummy"`, the dummy query is injected before ranking and dropped
afterwards, so the caller receives exactly the ranked documents of the real
query and no dummy entry. -/
theorem single_query_dummy_handling (rank : String → String → List String)
    (qid qtext : String) (hqid : qid ≠ "dummy") :
    retrieveWithDummy rank [(qid, qtext)] = [(qid, rank qid qtext)] ∧
      ∀ e ∈ retrieveWithDummy rank [(qid, qtext)], e.1 ≠ "dummy" := by
  have hq : retrieveWithDummy rank [(qid, qtext)] = [(qid, rank qid qtext)] := by
    unfold retrieveWithDummy dictUpdate retrieveAll dictPop
    simp [hqid, Ne.symm hqid]
  refine ⟨hq, ?_⟩
  intro e he
  rw [hq] at he
  simp only [List.mem_singleton] at he
  subst he
  exact hqid

/-- Witness for C8's amended theorem: a single query `proj/0`. -/
theorem single_query_dummy_handling_witness :
    retrieveWithDummy (fun i t => [i ++ ":" ++ t]) [("proj/0", "code")]
      = [("proj/0", ["proj/0:code"])] :=
  (single_query_dummy_handling (fun i t => [i ++ ":" ++ t]) "proj/0" "code"
    (by decide)).1

/-- C8 counterexample: if the single real query's id is itself `"dummy"`,
the injected dummy overwrites it and the final pop removes it, so the caller
receives no ranked documents for the real query — the claim fails as stated
for this invocation with exactly one query. -/
theorem single_query_dummy_handling_counterexample :
    retrieveWithDummy (fun i t => [i ++ ":" ++ t]) [("dummy", "code")] = [] ∧
      ([] : List (String × List String)) ≠ [("dummy", ["dummy:code"])] := by
  constructor
  · rfl
  · decide

/-! ### C9: the generator's LLM retry loop
(`generation.py`, `openai_generations.get_response`, lines 297–337)

`attempt i` abstracts the body of the `try` at the i-th iteration (1-based):
`Except.ok` is the `return [...]` and `Except.error` an exception.  The
result triple is `(outcome, number of attempts made, sleep durations)`;
Python's `time.sleep(i_iters * sleep)` runs only when another attempt
remains. -/

/-- The message of the exception raised after the final failed attempt. -/
def failMessage (nIters : Nat) (lastExc : Option String) : String :=
  "Failed to get response from OpenAI API after " ++ toString nIters
    ++ " attempts. Last error: "
    ++ (match lastExc with | some e => e | none => "None")

/-- The `while i_iters < n_iters` loop of `get_response`; `remaining` is
`n_iters - i_iters` and `i` the attempts already made. -/
def getResponseGo (attempt : Nat → Except String (List String)) (nIters sleepBase : Nat) :
    Nat → Nat → Option String → Except String (List String) × Nat × List Nat
  | 0, _, lastExc => (Except.error (failMessage nIters lastExc), 0, [])
  | r + 1, i, _ =>
      match attempt (i + 1) with
      | Except.ok v => (Except.ok v, 1, [])
      | Except.error e =>
          let rest := getResponseGo attempt nIters sleepBase r (i + 1) (some e)
          (rest.1, rest.2.1 + 1, if r > 0 then ((i + 1) * sleepBase) :: rest.2.2 else rest.2.2)

/-- Source `get_response(user_prompt, n_iters, sleep)`, retry behaviour only. -/
def getResponse (attempt : Nat → Except String (List String)) (nIters sleepBase : Nat) :
    Except String (List String) × Nat × List Nat :=
  getResponseGo attempt nIters sleepBase nIters 0 none

/-- Default `n_iters` of `get_response`. -/
def defaultNIters : Nat := 2

/-- Default `sleep` of `get_response` (seconds). -/
def defaultSleepBase : Nat := 10

theorem getResponseGo_all_fail (attempt : Nat → Except String (List String))
    (es : Nat → String) (nIters sleepBase : Nat)
    (hfail : ∀ i, attempt i = Except.error (es i)) :
    ∀ (r : Nat), 1 ≤ r → ∀ (i : Nat) (lastExc : Option String),
      getResponseGo attempt nIters sleepBase r i lastExc
        = (Except.error (failMessage nIters (some (es (i + r)))), r,
            (List.range' (i + 1) (r - 1)).map (fun k => k * sleepBase)) := by
  intro r
  induction r with
  | zero => intro h; omega
  | succ r' ih =>
      intro _ i lastExc
      by_cases h1 : 1 ≤ r'
      · simp only [getResponseGo, hfail (i + 1)]
        rw [ih h1 (i + 1) (some (es (i + 1)))]
        have hpos : r' > 0 := h1
        rw [if_pos hpos]
        have harith : i + 1 + r' = i + (r' + 1) := by omega
        have hrange : List.range' (i + 1) (r' + 1 - 1)
            = (i + 1) :: List.range' (i + 1 + 1) (r' - 1) := by
          have h2 : r' + 1 - 1 = (r' - 1) + 1 := by omega
          rw [h2, List.range'_succ]
        rw [harith, hrange]
        simp
      · have hr0 : r' = 0 := by omega
        subst hr0
        simp only [getResponseGo, hfail (i + 1)]
        simp [getResponseGo]

/-- C9 (amended): when every attempt fails, `get_response` makes exactly
`n_iters` attempts (default 2 — i.e. one retry after the initial failure),
sleeping `i * sleep` seconds after the i-th failure while attempts remain
(linear backoff), and then raises an exception carrying the last error
instead of returning a result. -/
theorem generation_retry_behaviour (attempt : Nat → Except String (List String))
    (es : Nat → String) (nIters sleepBase : Nat) (hn : 1 ≤ nIters)
    (hfail : ∀ i, attempt i = Except.error (es i)) :
    getResponse attempt nIters sleepBase
      = (Except.error (failMessage nIters (some (es nIters))), nIters,
          (List.range' 1 (nIters - 1)).map (fun k => k * sleepBase)) := by
  unfold getResponse
  rw [getResponseGo_all_fail attempt es nIters sleepBase hfail nIters hn 0 none]
  simp

/-- Witness for C9's amended theorem at the defaults (`n_iters = 2`,
`sleep = 10`): two attempts, one sleep of 10 s, error raised. -/
theorem generation_retry_behaviour_witness :
    getResponse (fun i => Except.error ("e" ++ toString i)) defaultNIters defaultSleepBase
      = (Except.error (failMessage 2 (some "e2")), 2, [10]) := by
  have h := generation_retry_behaviour (fun i => Except.error ("e" ++ toString i))
    (fun i => "e" ++ toString i) defaultNIters defaultSleepBase (by decide) (fun i => rfl)
  rw [h]
  rfl

/-- C9 counterexample: with the default budget, after the first failed
attempt there is exactly one further attempt (2 total), not two retries
(3 total) as "retried twice" asserts; and the sleep sequence for a budget of
4 is `[10, 20, 30]` — linear, not the exponential `[10, 20, 40]`. -/
theorem generation_retry_counterexample :
    (getResponse (fun i => Except.error ("e" ++ toString i))
        defaultNIters defaultSleepBase).2.1 = 2 ∧ (2 : Nat) ≠ 3 ∧
      (getResponse (fun i => Except.error ("e" ++ toString i)) 4 10).2.2 = [10, 20, 30] ∧
      ([10, 20, 30] : List Nat) ≠ [10, 20, 40] := by
  refine ⟨rfl, by decide, rfl, by decide⟩

/-! ### C4: post-processed candidate file contents
(`process_generations.py`, `write_candidates`, lines 204–244)

`stub` is the case's `provide_code` (the `prefix_text`), `body` the
normalized generation (`normalize_generation(candidate)`). -/

/-- The `end_suffix` choice:
`"FUNCTION_BLOCK " in upper_prefix` first, then `"FUNCTION "`, else
`END_OTHER`. -/
def endSuffixFor (stub : String) : String :=
  let up := pyUpper stub
  if strContains "FUNCTION_BLOCK " up then "END_FUNCTION_BLOCK"
  else if strContains "FUNCTION " up then "END_FUNCTION"
  else "END_OTHER"

/-- The written contents when `prefix_text` is non-empty:
`"\n".join([prefix_text.rstrip(), normalized.rstrip(), end_suffix]) + "\n"`. -/
def candidateContents (stub body : String) : String :=
  pyRstrip stub ++ "\n" ++ pyRstrip body ++ "\n" ++ endSuffixFor stub ++ "\n"

/-- Modelled from the spec's words (§4.6) for comparison: contents
`{provide_code}\n\n{body}\n{end_marker}\n`, the marker chosen by a
case-insensitive search of `provide_code` (`FUNCTION_BLOCK` first, then
`FUNCTION`), and not duplicated when the body already ends with it. -/
def candidateContentsSpec (stub body : String) : String :=
  let mk := if strContains "FUNCTION_BLOCK" (pyUpper stub) then "END_FUNCTION_BLOCK"
            else "END_FUNCTION"
  if mk.toList.isSuffixOf body.toList then stub ++ "\n\n" ++ body ++ "\n"
  else stub ++ "\n\n" ++ body ++ "\n" ++ mk ++ "\n"

/-- C4 (amended): the file contents are
`{rstrip(provide_code)}\n{rstrip(body)}\n{end_marker}\n` — a single newline
separator; the marker (`END_FUNCTION_BLOCK` if `FUNCTION_BLOCK ` occurs
case-insensitively in `provide_code`, else `END_FUNCTION` if `FUNCTION `
occurs, else `END_OTHER`) is always appended, even when the body already
ends with it; the file starts with `provide_code` exactly when
`provide_code` has no trailing whitespace, and always ends with the marker
line. -/
theorem candidate_file_contents (stub body : String)
    (hstub : pyRstrip stub = stub) :
    candidateContents stub body
        = stub ++ "\n" ++ pyRstrip body ++ "\n" ++ endSuffixFor stub ++ "\n" ∧
      stub.toList.isPrefixOf (candidateContents stub body).toList ∧
      (strContains "FUNCTION_BLOCK " (pyUpper stub) →
        endSuffixFor stub = "END_FUNCTION_BLOCK") ∧
      (¬strContains "FUNCTION_BLOCK " (pyUpper stub) →
        strContains "FUNCTION " (pyUpper stub) →
        endSuffixFor stub = "END_FUNCTION") ∧
      (endSuffixFor stub ++ "\n").toList.isSuffixOf (candidateContents stub body).toList := by
  have hmain : candidateContents stub body
      = stub ++ "\n" ++ pyRstrip body ++ "\n" ++ endSuffixFor stub ++ "\n" := by
    rw [candidateContents, hstub]
  refine ⟨hmain, ?_, ?_, ?_, ?_⟩
  · rw [hmain, List.isPrefixOf_iff_prefix]
    simp only [String.toList, String.data_append, List.append_assoc]
    exact List.prefix_append _ _
  · intro h
    simp [endSuffixFor, h]
  · intro h1 h2
    simp [endSuffixFor, h1, h2]
  · have hdecomp : (candidateContents stub body).toList
        = (stub ++ "\n" ++ pyRstrip body ++ "\n").toList
            ++ (endSuffixFor stub ++ "\n").toList := by
      rw [hmain]
      simp [String.toList, String.data_append, List.append_assoc]
    rw [List.isSuffixOf_iff_suffix, hdecomp]
    exact List.suffix_append _ _

/-- Witness for C4's amended theorem at a concrete case. -/
theorem candidate_file_contents_witness :
    candidateContents "FUNCTION F : INT" "F := 1;"
      = "FUNCTION F : INT\nF := 1;\nEND_FUNCTION\n" := by
  have h := (candidate_file_contents "FUNCTION F : INT" "F := 1;" (by decide)).1
  rw [h]
  decide

/-- C4 counterexample: for `provide_code = "FUNCTION F : INT"` and body
`"F := 1;\nEND_FUNCTION"` (which already ends with the marker), the claimed
contents `{provide_code}\n\n{body}\n` (no duplicate marker) differ from what
the code writes — a single newline separator and a second, duplicated
`END_FUNCTION`. -/
theorem candidate_file_contents_counterexample :
    candidateContents "FUNCTION F : INT" "F := 1;\nEND_FUNCTION"
        = "FUNCTION F : INT\nF := 1;\nEND_FUNCTION\nEND_FUNCTION\n" ∧
      candidateContentsSpec "FUNCTION F : INT" "F := 1;\nEND_FUNCTION"
        = "FUNCTION F : INT\n\nF := 1;\nEND_FUNCTION\n" ∧
      candidateContents "FUNCTION F : INT" "F := 1;\nEND_FUNCTION"
        ≠ candidateContentsSpec "FUNCTION F : INT" "F := 1;\nEND_FUNCTION" := by
  refine ⟨by decide, by decide, by decide⟩

/-! ### C10: collision-avoiding candidate writer
(`process_generations.py`, `write_candidates`, lines 230–244)

The output directory is embedded as an association list from file name to
contents; `dest.exists()` is membership among the names.  Each candidate's
`suffix` is `""` or `_cand{idx}`; the `while dest.exists()` loop is given
`|dir| + 1` fuel (enough candidate names to leave the finite directory). -/

/-- The names present in a directory. -/
def fileNames (dir : List (String × String)) : List String := dir.map Prod.fst

/-- Source `f"{base}{suffix}_{counter}{ext}"`. -/
def numberedName (base suffix ext : String) (counter : Nat) : String :=
  base ++ suffix ++ "_" ++ toString counter ++ ext

/-- The `while dest.exists(): dest = ..._{counter}...; counter += 1` loop. -/
def freshNameLoop (existing : List String) (base suffix ext : String) :
    Nat → Nat → Option String
  | 0, _ => none
  | fuel + 1, counter =>
      let cand := numberedName base suffix ext counter
      if existing.contains cand then
        freshNameLoop existing base suffix ext fuel (counter + 1)
      else some cand

/-- Destination choice: the plain `{base}{suffix}{ext}` when unused, else
the first unused `_{counter}` name starting from 1. -/
def chooseDest (existing : List String) (base suffix ext : String) : Option String :=
  let first := base ++ suffix ++ ext
  if existing.contains first then
    freshNameLoop existing base suffix ext (existing.length + 1) 1
  else some first

/-- Writing a file: overwrite in place, or append. -/
def fsWrite (dir : List (String × String)) (n c : String) : List (String × String) :=
  if (fileNames dir).contains n then
    dir.map (fun e => if e.1 = n then (n, c) else e)
  else dir ++ [(n, c)]

/-- One candidate of `write_candidates`: pick a fresh destination and write. -/
def writeCandidate (dir : List (String × String)) (base suffix ext content : String) :
    List (String × String) :=
  match chooseDest (fileNames dir) base suffix ext with
  | some n => fsWrite dir n content
  | none => dir

/-- The whole `write_candidates` call: the candidates (pairs of per-index
suffix and normalized content) written in order. -/
def writeCandidates (dir : List (String × String)) (base ext : String)
    (cands : List (String × String)) : List (String × String) :=
  cands.foldl (fun d sc => writeCandidate d base sc.1 ext sc.2) dir

theorem freshNameLoop_spec (existing : List String) (base suffix ext : String) :
    ∀ (fuel counter : Nat) (n : String),
      freshNameLoop existing base suffix ext fuel counter = some n →
      n ∉ existing ∧
        ∃ k, counter ≤ k ∧ n = numberedName base suffix ext k ∧
          ∀ j, counter ≤ j → j < k → numberedName base suffix ext j ∈ existing := by
  intro fuel
  induction fuel with
  | zero => intro counter n h; simp [freshNameLoop] at h
  | succ f ih =>
      intro counter n h
      rw [freshNameLoop] at h
      by_cases hc : existing.contains (numberedName base suffix ext counter)
      · rw [if_pos hc] at h
        obtain ⟨hnot, k, hk, hn, hall⟩ := ih (counter + 1) n h
        refine ⟨hnot, k, by omega, hn, ?_⟩
        intro j hj1 hj2
        by_cases hje : j = counter
        · subst hje
          exact List.elem_iff.mp hc
        · exact hall j (by omega) hj2
      · rw [if_neg hc] at h
        have hn : n = numberedName base suffix ext counter := by
          simpa using h.symm
        subst hn
        refine ⟨fun hmem => hc (List.elem_iff.mpr hmem), counter, le_rfl, rfl, ?_⟩
        intro j hj1 hj2
        omega

theorem chooseDest_fresh (existing : List String) (base suffix ext n : String)
    (h : chooseDest existing base suffix ext = some n) :
    n ∉ existing ∧
      (n = base ++ suffix ++ ext ∨
        (base ++ suffix ++ ext ∈ existing ∧
          ∃ k, 1 ≤ k ∧ n = numberedName base suffix ext k ∧
            ∀ j, 1 ≤ j → j < k → numberedName base suffix ext j ∈ existing)) := by
  rw [chooseDest] at h
  by_cases hc : existing.contains (base ++ suffix ++ ext)
  · rw [if_pos hc] at h
    obtain ⟨hnot, k, hk, hn, hall⟩ := freshNameLoop_spec existing base suffix ext
      (existing.length + 1) 1 n h
    exact ⟨hnot, Or.inr ⟨List.elem_iff.mp hc, k, hk, hn, hall⟩⟩
  · rw [if_neg hc] at h
    have hn : n = base ++ suffix ++ ext := by simpa using h.symm
    subst hn
    exact ⟨fun hmem => hc (List.elem_iff.mpr hmem), Or.inl rfl⟩

theorem lookup_append_of_mem (dir rest : List (String × String)) (name : String)
    (h : name ∈ fileNames dir) :
    List.lookup name (dir ++ rest) = List.lookup name dir := by
  induction dir with
  | nil => simp [fileNames] at h
  | cons e dir' ih =>
      by_cases he : name = e.1
      · simp [List.lookup, he.symm ▸ (beq_self_eq_true e.1)]
        rw [show (name == e.1) = true from beq_iff_eq.mpr he]
      · have hmem : name ∈ fileNames dir' := by
          simp only [fileNames, List.map_cons, List.mem_cons] at h
          tauto
        simp only [List.cons_append, List.lookup,
          show (name == e.1) = false from beq_eq_false_iff_ne.mpr he]
        exact ih hmem

theorem fsWrite_preserves (dir : List (String × String)) (n c name : String)
    (hmem : name ∈ fileNames dir) (hn : n ∉ fileNames dir) :
    List.lookup name (fsWrite dir n c) = List.lookup name dir := by
  rw [fsWrite, if_neg (fun hc => hn (List.elem_iff.mp hc))]
  exact lookup_append_of_mem dir [(n, c)] name hmem

theorem writeCandidate_preserves (dir : List (String × String))
    (base suffix ext content name : String) (hmem : name ∈ fileNames dir) :
    List.lookup name (writeCandidate dir base suffix ext content)
      = List.lookup name dir := by
  rw [writeCandidate]
  cases hdest : chooseDest (fileNames dir) base suffix ext with
  | none => rfl
  | some n =>
      exact fsWrite_preserves dir n content name hmem
        (chooseDest_fresh (fileNames dir) base suffix ext n hdest).1

theorem fileNames_fsWrite_mono (dir : List (String × String)) (n c name : String)
    (hmem : name ∈ fileNames dir) : name ∈ fileNames (fsWrite dir n c) := by
  rw [fsWrite]
  by_cases hc : (fileNames dir).contains n
  · rw [if_pos hc]
    have hkeys : fileNames (dir.map (fun e => if e.1 = n then (n, c) else e))
        = fileNames dir := by
      simp only [fileNames, List.map_map]
      congr 1
      funext e
      by_cases he : e.1 = n
      · simp [he]
      · simp [he]
    rw [hkeys]
    exact hmem
  · rw [if_neg hc]
    simp only [fileNames, List.map_append]
    exact List.mem_append_left _ hmem

theorem fileNames_writeCandidate_mono (dir : List (String × String))
    (base suffix ext content name : String) (hmem : name ∈ fileNames dir) :
    name ∈ fileNames (writeCandidate dir base suffix ext content) := by
  rw [writeCandidate]
  cases chooseDest (fileNames dir) base suffix ext with
  | none => exact hmem
  | some n => exact fileNames_fsWrite_mono dir n content name hmem

theorem writeCandidates_preserves (base ext : String) :
    ∀ (cands : List (String × String)) (dir : List (String × String)) (name : String),
      name ∈ fileNames dir →
      List.lookup name (writeCandidates dir base ext cands) = List.lookup name dir := by
  intro cands
  induction cands with
  | nil => intro dir name _; rfl
  | cons sc rest ih =>
      intro dir name hmem
      have hstep : writeCandidates dir base ext (sc :: rest)
          = writeCandidates (writeCandidate dir base sc.1 ext sc.2) base ext rest := rfl
      rw [hstep, ih (writeCandidate dir base sc.1 ext sc.2) name
        (fileNames_writeCandidate_mono dir base sc.1 ext sc.2 name hmem),
        writeCandidate_preserves dir base sc.1 ext sc.2 name hmem]

/-- C10: the candidate writer never overwrites a pre-existing file — the
chosen destination is absent from the directory, obtained by appending
`_1, _2, …` to the taken base name until an unused name is found, and after
a whole `write_candidates` call the contents of every pre-existing file are
unchanged. -/
theorem write_candidates_no_overwrite (dir : List (String × String))
    (base ext : String) (cands : List (String × String)) :
    (∀ (suffix n : String), chooseDest (fileNames dir) base suffix ext = some n →
        n ∉ fileNames dir ∧
          (n = base ++ suffix ++ ext ∨
            (base ++ suffix ++ ext ∈ fileNames dir ∧
              ∃ k, 1 ≤ k ∧ n = numberedName base suffix ext k ∧
                ∀ j, 1 ≤ j → j < k →
                  numberedName base suffix ext j ∈ fileNames dir))) ∧
      (∀ name, name ∈ fileNames dir →
        List.lookup name (writeCandidates dir base ext cands)
          = List.lookup name dir) := by
  exact ⟨fun suffix n h => chooseDest_fresh (fileNames dir) base suffix ext n h,
    fun name hmem => writeCandidates_preserves base ext cands dir name hmem⟩

/-- Witness for C10: the directory already holds `F.st`; the first candidate
goes to `F_1.st` and the old file's contents are untouched. -/
theorem write_candidates_no_overwrite_witness :
    "F_1.st" ∉ fileNames [("F.st", "old")] ∧
      List.lookup "F.st"
          (writeCandidates [("F.st", "old")] "F" ".st" [("", "new")])
        = List.lookup "F.st" [("F.st", "old")] := by
  have h := write_candidates_no_overwrite [("F.st", "old")] "F" ".st" [("", "new")]
  exact ⟨(h.1 "" "F_1.st" (by decide)).1, h.2 "F.st" (by decide)⟩

end STPipeline
